import Mathlib

/-!
Shallow embedding of the zos network-resource planner
(src/modules/network/net_resource.go) and of the storage allocator
(src/pkg/storage/zdb.go), with theorems checking the specification's
claims about them.

The `modules` package (NodeID, reachability constants, Peer, NetResource,
Network) and the `ip` nibble package are repository code that is not under
src/; those parts are modelled from the spec (see the doc comments that
start with "Modelled from the spec:").  Everything else is translated
directly from the Go source.
-/

namespace Zos

/-- Modelled from the spec: IPv6 reachability classification of a NodeID
(one of Public, Hidden/ULA, Unknown); the `modules` package defining the
`ReachabilityV6…` constants is not under src/. -/
inductive ReachV6 where
  | public
  | ula
  | unknown
deriving DecidableEq, Repr

/-- Modelled from the spec: IPv4 reachability classification of a NodeID
(one of Public, Hidden/NAT-restricted, Unknown). -/
inductive ReachV4 where
  | public
  | hidden
  | unknown
deriving DecidableEq, Repr

/-- Modelled from the spec: connection type of a peer; only the
WireGuard tunnel type is acted on, every other type is ignored. -/
inductive ConnType where
  | wireguard
  | other
deriving DecidableEq, Repr

/-- Modelled from the spec: opaque node identifier plus the two
reachability classifications (`modules.NodeID`). -/
structure NodeID where
  id : String
  reachabilityV4 : ReachV4
  reachabilityV6 : ReachV6
deriving DecidableEq, Repr

/-- Modelled from the spec: an IPv6 /64 network (`*net.IPNet` in Go).
`a`/`b` are the data from which the AddressDeriver computes the
translated IPv4 octet pair, and `wellFormed` records whether the
derivation succeeds (it fails only on a malformed prefix). -/
structure Pfx where
  a : Nat
  b : Nat
  wellFormed : Bool
deriving DecidableEq, Repr

/-- The Go `Prefix.String()` textual form, used as the comparison key
throughout net_resource.go. -/
def Pfx.string (p : Pfx) : String :=
  "2001:" ++ toString p.a ++ ":" ++ toString p.b ++ "::/64"

/-- Modelled from the spec: the AddressDeriver's compact hex token
(`Nibble.Hex()`), a stateless deterministic function of the prefix
alone (spec section 3, "Derived naming"). -/
def nibbleHex (p : Pfx) : String :=
  toString p.a ++ "x" ++ toString p.b

/-- Modelled from the spec: the AddressDeriver's translated IPv4 octet
pair (`Nibble.ToV4()`); total except on a malformed prefix, where it
signals an AddressError (here: `none`). -/
def nibbleToV4 (p : Pfx) : Option (Nat × Nat) :=
  if p.wellFormed then some (p.a, p.b) else none

/-- Modelled from the spec: connection metadata of a peer
(`modules.Peer.Connection`): public key, reachable IP and port.
The IP is a Go `net.IP`, i.e. a byte slice of any length. -/
structure Connection where
  key : String
  ip : List Nat
  port : Nat
deriving DecidableEq, Repr

/-- Modelled from the spec: a mesh link to another resource
(`modules.Peer`): target network, connection type, connection data. -/
structure Peer where
  pfx : Pfx
  ctype : ConnType
  connection : Connection
deriving DecidableEq, Repr

/-- Modelled from the spec: one node's segment of a network
(`modules.NetResource`). -/
structure NetResource where
  nodeID : NodeID
  pfx : Pfx
  linkLocal : String
  peers : List Peer
deriving DecidableEq, Repr

/-- Modelled from the spec: a named collection of resources with a
designated Exit resource and an allocation number (`modules.Network`). -/
structure Network where
  resources : List NetResource
  exit : NetResource
  allocationNR : Nat
deriving DecidableEq, Repr

/-- `wireguard.Peer`: public key, optional endpoint (Go zero value `""`
when absent) and allowed-IPs strings. -/
structure WGPeer where
  publicKey : String
  endpoint : String
  allowedIPs : List String
deriving DecidableEq, Repr

/-- Destination of a `netlink.Route`: either a resource network
(`Dst: peer.Prefix`) or a literal built from `net.ParseIP` and
`net.CIDRMask(ones, bits)`. -/
inductive RouteDst where
  | pfx (p : Pfx)
  | cidr (ip : String) (ones : Nat) (bits : Nat)
deriving DecidableEq, Repr

/-- A `netlink.Route` as net_resource.go builds them: destination and
gateway (the gateway is the string passed to `net.ParseIP`). -/
structure Route where
  dst : RouteDst
  gw : String
deriving DecidableEq, Repr

/-- net_resource.go `isIn` (lines 476-483). -/
def isIn (target : String) : List String → Bool
  | [] => false
  | x :: rest => if target = x then true else isIn target rest

/-- net_resource.go `getPeer` (lines 485-492): first peer whose
`Prefix.String()` equals the argument, else the "peer not found" error. -/
def getPeer (pfxStr : String) : List Peer → Except String Peer
  | [] => Except.error "peer not found"
  | q :: rest => if q.pfx.string = pfxStr then Except.ok q else getPeer pfxStr rest

/-- net_resource.go `isPublic` (lines 514-517). -/
def isPublic (n : NodeID) : Bool :=
  n.reachabilityV6 == ReachV6.public || n.reachabilityV4 == ReachV4.public

/-- net_resource.go `isHidden` (lines 519-522). -/
def isHidden (n : NodeID) : Bool :=
  n.reachabilityV6 == ReachV6.ula || n.reachabilityV4 == ReachV4.hidden

/-- net_resource.go `publicPrefixes` (lines 494-502): the prefix strings
of the resources whose NodeID is public, in list order. -/
def publicPfxs : List NetResource → List String
  | [] => []
  | r :: rest =>
    if isPublic r.nodeID then r.pfx.string :: publicPfxs rest else publicPfxs rest

/-- net_resource.go `hiddenPrefixes` (lines 504-512). -/
def hiddenPfxs : List NetResource → List String
  | [] => []
  | r :: rest =>
    if isHidden r.nodeID then r.pfx.string :: hiddenPfxs rest else hiddenPfxs rest

/-- Go `net.IP.To16`: the 16-byte form of a 4-byte or 16-byte address,
`nil` (here `none`) for every other length. -/
def ipTo16 (ip : List Nat) : Option (List Nat) :=
  if ip.length = 4 then some ([0, 0, 0, 0, 0, 0, 0, 0, 0, 0, 255, 255] ++ ip)
  else if ip.length = 16 then some ip
  else none

/-- Go `net.IP.String()`, modelled as a plain textual rendering of the
bytes; only its identity matters to the claims. -/
def ipString (ip : List Nat) : String :=
  String.intercalate "." (ip.map toString)

/-- net_resource.go `endpoint` (lines 524-532): bracketed
`[ip]:port` when `Connection.IP.To16()` is non-nil, plain `ip:port`
otherwise. -/
def endpoint (q : Peer) : String :=
  if (ipTo16 q.connection.ip).isSome then
    "[" ++ ipString q.connection.ip ++ "]:" ++ toString q.connection.port
  else
    ipString q.connection.ip ++ ":" ++ toString q.connection.port

/-- `fmt.Sprintf("fe80::%s", nibble.Hex())`. -/
def linkLocalGw (p : Pfx) : String :=
  "fe80::" ++ nibbleHex p

/-- `fmt.Sprintf("fe80::%s/128", nibble.Hex())`. -/
def linkLocal128 (p : Pfx) : String :=
  "fe80::" ++ nibbleHex p ++ "/128"

/-- `fmt.Sprintf("172.16.%d.%d/32", a, b)`. -/
def v4Slash32 (a b : Nat) : String :=
  "172.16." ++ toString a ++ "." ++ toString b ++ "/32"

/-- `fmt.Sprintf("172.16.%d.%d", a, b)`. -/
def v4Gw (a b : Nat) : String :=
  "172.16." ++ toString a ++ "." ++ toString b

/-- The mesh route net_resource.go appends for a peer:
`{Dst: peer.Prefix, Gw: fe80::<hex>}`. -/
def mkMeshRoute (q : Peer) : Route :=
  { dst := RouteDst.pfx q.pfx, gw := linkLocalGw q.pfx }

/-- The loop of `configureExitNetNR` (net_resource.go lines 178-207):
skip non-WireGuard peers, skip the local resource's own network, skip
peers outside the hidden partition; for the rest derive (a, b) (error
aborts the whole call) and emit a WGPeer without endpoint plus a mesh
route. -/
def exitLoop (localStr : String) (hidden : List String) :
    List Peer → Except String (List WGPeer × List Route)
  | [] => Except.ok ([], [])
  | q :: rest =>
    if q.ctype ≠ ConnType.wireguard then exitLoop localStr hidden rest
    else if q.pfx.string = localStr then exitLoop localStr hidden rest
    else if isIn q.pfx.string hidden = false then exitLoop localStr hidden rest
    else
      match nibbleToV4 q.pfx with
      | none => Except.error "invalid nibble"
      | some (a, b) =>
        match exitLoop localStr hidden rest with
        | Except.error e => Except.error e
        | Except.ok (ps, rs) =>
          Except.ok
            ({ publicKey := q.connection.key, endpoint := "",
               allowedIPs := [linkLocal128 q.pfx, v4Slash32 a b, q.pfx.string] } :: ps,
             mkMeshRoute q :: rs)

/-- The planning part of `configureExitNetNR` (lines 173-207): the
peer/route computation before the namespace is entered. -/
def configureExitNetNRPlan (lr : NetResource) (nw : Network) :
    Except String (List WGPeer × List Route) :=
  exitLoop lr.pfx.string (hiddenPfxs nw.resources) lr.peers

/-- The loop of `prepareHidden` (net_resource.go lines 271-300): skip
non-WireGuard and self peers, derive (a, b) (error aborts), then emit a
WGPeer with endpoint plus a mesh route only when the peer's network is
in the public partition. -/
def hiddenLoop (localStr : String) (pub : List String) :
    List Peer → Except String (List WGPeer × List Route)
  | [] => Except.ok ([], [])
  | q :: rest =>
    if q.ctype ≠ ConnType.wireguard then hiddenLoop localStr pub rest
    else if q.pfx.string = localStr then hiddenLoop localStr pub rest
    else
      match nibbleToV4 q.pfx with
      | none => Except.error "invalid nibble"
      | some (a, b) =>
        match hiddenLoop localStr pub rest with
        | Except.error e => Except.error e
        | Except.ok (ps, rs) =>
          if isIn q.pfx.string pub then
            Except.ok
              ({ publicKey := q.connection.key, endpoint := endpoint q,
                 allowedIPs := [linkLocal128 q.pfx, v4Slash32 a b, q.pfx.string] } :: ps,
               mkMeshRoute q :: rs)
          else Except.ok (ps, rs)

/-- net_resource.go `prepareHidden` (lines 265-302). -/
def prepareHidden (lr : NetResource) (nw : Network) :
    Except String (List WGPeer × List Route) :=
  hiddenLoop lr.pfx.string (publicPfxs nw.resources) lr.peers

/-- The loop of `preparePublic` (net_resource.go lines 311-349): skip
non-WireGuard and self peers, derive (a, b) (error aborts), always emit
a WGPeer (endpoint only when the peer's network is in the public
partition), and emit a mesh route unless the peer is the Exit. -/
def publicLoop (localStr : String) (pub : List String) (exitStr : String) :
    List Peer → Except String (List WGPeer × List Route)
  | [] => Except.ok ([], [])
  | q :: rest =>
    if q.ctype ≠ ConnType.wireguard then publicLoop localStr pub exitStr rest
    else if q.pfx.string = localStr then publicLoop localStr pub exitStr rest
    else
      match nibbleToV4 q.pfx with
      | none => Except.error "invalid nibble"
      | some (a, b) =>
        match publicLoop localStr pub exitStr rest with
        | Except.error e => Except.error e
        | Except.ok (ps, rs) =>
          let gp : WGPeer :=
            { publicKey := q.connection.key,
              endpoint := if isIn q.pfx.string pub then endpoint q else "",
              allowedIPs := [linkLocal128 q.pfx, v4Slash32 a b, q.pfx.string] }
          if q.pfx.string = exitStr then Except.ok (gp :: ps, rs)
          else Except.ok (gp :: ps, mkMeshRoute q :: rs)

/-- net_resource.go `preparePublic` (lines 304-352). -/
def preparePublic (lr : NetResource) (nw : Network) :
    Except String (List WGPeer × List Route) :=
  publicLoop lr.pfx.string (publicPfxs nw.resources) nw.exit.pfx.string lr.peers

/-- net_resource.go `prepareNonExitNode` (lines 354-407): find the Exit
peer in the local peer list (error if absent), emit it as the single
WGPeer with catch-all allowed-IPs and an endpoint; when the local
resource is not the Exit, also emit the three default routes exactly as
the source builds them: dst `net.ParseIP("::")` with
`net.CIDRMask(64, 128)` via the exit's link-local address, dst
`10.a.b.0` with `CIDRMask(24, 32)` via `172.16.a.b`, and dst `0.0.0.0`
with `CIDRMask(0, 32)` via `172.16.a.b`. -/
def prepareNonExitNode (lr : NetResource) (nw : Network) :
    Except String (List WGPeer × List Route) :=
  match getPeer nw.exit.pfx.string lr.peers with
  | Except.error e => Except.error e
  | Except.ok exitPeer =>
    let ps : List WGPeer :=
      [{ publicKey := exitPeer.connection.key, endpoint := endpoint exitPeer,
         allowedIPs := ["0.0.0.0/0", "::/0"] }]
    if lr.pfx.string ≠ nw.exit.pfx.string then
      let r1 : Route :=
        { dst := RouteDst.cidr "::" 64 128, gw := linkLocalGw exitPeer.pfx }
      match nibbleToV4 exitPeer.pfx with
      | none => Except.error "invalid nibble"
      | some (a, b) =>
        let r2 : Route :=
          { dst := RouteDst.cidr ("10." ++ toString a ++ "." ++ toString b ++ ".0") 24 32,
            gw := v4Gw a b }
        let r3 : Route :=
          { dst := RouteDst.cidr "0.0.0.0" 0 32, gw := v4Gw a b }
        Except.ok (ps, [r1, r2, r3])
    else
      Except.ok (ps, [])

/-- The OS-visible state of the resource namespace that `configWG`
mutates: addresses assigned to the tunnel interface, the configured key
and peer list, and the installed routes. -/
structure NetNS where
  addrs : List String
  wgKey : String
  wgPeers : List WGPeer
  routes : List Route
deriving DecidableEq, Repr

/-- Membership of a route in the installed route list. -/
def routeMem (r : Route) : List Route → Bool
  | [] => false
  | x :: rest => if r = x then true else routeMem r rest

/-- Modelled from the spec: `wireguard.SetAddr` (the wireguard package is
not under src/) assigns an address via the kernel's address-add
operation, which reports the Linux "file exists" (EEXIST) condition when
the address is already assigned; the error is propagated unchanged. -/
def setAddr (ns : NetNS) (addr : String) : Except String NetNS :=
  if isIn addr ns.addrs then Except.error "file exists"
  else Except.ok { ns with addrs := ns.addrs ++ [addr] }

/-- `netlink.RouteAdd`: the kernel reports the "file exists" (EEXIST)
condition when the route is already installed. -/
def routeAdd (ns : NetNS) (r : Route) : Except String NetNS :=
  if routeMem r ns.routes then Except.error "file exists"
  else Except.ok { ns with routes := ns.routes ++ [r] }

/-- The route-install loop of `configWG` (net_resource.go lines
450-459): any `RouteAdd` error is returned as-is, aborting the apply. -/
def routesAddAll (ns : NetNS) : List Route → Except String NetNS
  | [] => Except.ok ns
  | r :: rest =>
    match routeAdd ns r with
    | Except.error e => Except.error e
    | Except.ok ns2 => routesAddAll ns2 rest

/-- The in-namespace handler of `configWG` (net_resource.go lines
427-462): assign the link-local address, derive (a, b), assign the
translated `172.16.a.b/16` address, configure key and peers atomically,
then install every route; every error propagates unchanged. -/
def configWG (lr : NetResource) (wgPeers : List WGPeer) (routes : List Route)
    (key : String) (ns0 : NetNS) : Except String NetNS :=
  match setAddr ns0 lr.linkLocal with
  | Except.error e => Except.error e
  | Except.ok ns1 =>
    match nibbleToV4 lr.pfx with
    | none => Except.error "invalid nibble"
    | some (a, b) =>
      match setAddr ns1 ("172.16." ++ toString a ++ "." ++ toString b ++ "/16") with
      | Except.error e => Except.error e
      | Except.ok ns2 =>
        routesAddAll { ns2 with wgKey := key, wgPeers := wgPeers } routes

/-- storage/zdb.go `Allocation` (lines 23-26). -/
structure Allocation where
  volumeID : String
  volumePath : String
deriving DecidableEq, Repr

/-- storage/zdb.go `zdbNamespace` (lines 28-32). -/
structure ZdbNs where
  id : String
  size : Nat
  mode : String
deriving DecidableEq, Repr

/-- storage/zdb.go `zdbNamespaces.Total` (lines 36-42). -/
def nsTotal : List ZdbNs → Nat
  | [] => 0
  | n :: rest => n.size + nsTotal rest

/-- A btrfs subvolume as the allocator sees it: name, path, and the
namespaces stored on it (the directory contents read by
`ListNamespaces`, modelling a fault-free filesystem). -/
structure Volume where
  name : String
  path : String
  namespaces : List ZdbNs
deriving DecidableEq, Repr

/-- A storage pool: its device type, the size reported by `Usage()`,
and its volumes. -/
structure Pool where
  ptype : String
  usageSize : Nat
  volumes : List Volume
deriving DecidableEq, Repr

/-- Go `strings.HasPrefix`, over the character lists. -/
def strHasPfx : List Char → List Char → Bool
  | [], _ => true
  | _ :: _, [] => false
  | c :: cp, d :: ds => if c = d then strHasPfx cp ds else false

/-- storage/zdb.go `isZdbVolume` (lines 44-46) with
`zdbPoolPrefix = "zdb"` (line 382). -/
def isZdbVolume (v : Volume) : Bool :=
  strHasPfx "zdb".data v.name.data

/-- storage/zdb.go `GetNamespace` (lines 68-82) on a fault-free
filesystem: the stored namespace, or not-exist. -/
def getNamespace (v : Volume) (nsID : String) : Option ZdbNs :=
  v.namespaces.find? (fun n => n.id == nsID)

/-- The inner loop of Allocate2's first pass (lines 130-152): first zdb
volume already holding the requested namespace. -/
def findExistingVol (nsID : String) : List Volume → Option Allocation
  | [] => none
  | v :: rest =>
    if isZdbVolume v = false then findExistingVol nsID rest
    else
      match getNamespace v nsID with
      | some _ => some { volumeID := v.name, volumePath := v.path }
      | none => findExistingVol nsID rest

/-- The outer loop of Allocate2's first pass (lines 118-153): skip pools
of the wrong disk type. -/
def findExisting (diskType : String) (nsID : String) : List Pool → Option Allocation
  | [] => none
  | pool :: rest =>
    if pool.ptype ≠ diskType then findExisting diskType nsID rest
    else
      match findExistingVol nsID pool.volumes with
      | some alloc => some alloc
      | none => findExisting diskType nsID rest

/-- Outcome of Allocate2's candidate pass: `earlyReturn` models the
`return allocation, nil` inside the loop (line 204), carrying the
candidates accumulated up to that point; `fellThrough` models the loop
running to completion. -/
inductive CandOut where
  | earlyReturn (cands : List (Volume × Nat))
  | fellThrough (cands : List (Volume × Nat))
deriving DecidableEq, Repr

/-- The inner loop of Allocate2's candidate pass (lines 178-205): skip
non-zdb volumes and volumes without room; on the first fitting volume,
append it to `candidates` and return (the Go `return allocation, nil`). -/
def candVolLoop (size usage : Nat) (acc : List (Volume × Nat)) :
    List Volume → CandOut
  | [] => CandOut.fellThrough acc
  | v :: rest =>
    if isZdbVolume v = false then candVolLoop size usage acc rest
    else if nsTotal v.namespaces + size > usage then candVolLoop size usage acc rest
    else CandOut.earlyReturn (acc ++ [(v, usage - (nsTotal v.namespaces + size))])

/-- The outer loop of Allocate2's candidate pass (lines 162-206). -/
def candPoolLoop (diskType : String) (size : Nat) (acc : List (Volume × Nat)) :
    List Pool → CandOut
  | [] => CandOut.fellThrough acc
  | pool :: rest =>
    if pool.ptype ≠ diskType then candPoolLoop diskType size acc rest
    else
      match candVolLoop size pool.usageSize acc pool.volumes with
      | CandOut.earlyReturn cs => CandOut.earlyReturn cs
      | CandOut.fellThrough cs => candPoolLoop diskType size cs rest

/-- The candidate with the most free space (the `sort.Slice` descending
by `Free` followed by `candidates[0]`, lines 209-215). -/
def bestCandidate (cs : List (Volume × Nat)) : Option Volume :=
  ((cs.mergeSort (fun x y => decide (x.2 ≥ y.2))).head?).map (fun c => c.1)

/-- Result of `Allocate2`: the returned Allocation, and the namespace
creation performed by `CreateNamespace` when one happened (volume name
and namespace ID). -/
structure Alloc2Result where
  allocation : Allocation
  created : Option (String × String)
deriving DecidableEq, Repr

/-- storage/zdb.go `Allocate2` (lines 109-246) on a fault-free
filesystem. `freshName` stands for the random UUID of
`genZDBPoolName` (line 384, not random here so the function stays
deterministic); `createSubvol` is repository code not under src/,
modelled from its call site as producing a fresh empty volume with the
generated name. -/
def Allocate2 (pools : List Pool) (nsID : String) (diskType : String)
    (size : Nat) (mode : String) (freshName : String) : Alloc2Result :=
  match findExisting diskType nsID pools with
  | some alloc => { allocation := alloc, created := none }
  | none =>
    match candPoolLoop diskType size [] pools with
    | CandOut.earlyReturn _cs =>
      { allocation := { volumeID := "", volumePath := "" }, created := none }
    | CandOut.fellThrough cs =>
      match bestCandidate cs with
      | some v =>
        { allocation := { volumeID := v.name, volumePath := v.path },
          created := some (v.name, nsID) }
      | none =>
        let vname := "zdb" ++ freshName
        { allocation := { volumeID := vname, volumePath := "/" ++ vname },
          created := some (vname, nsID) }

/-! Concrete fixtures: a three-resource network. `resA` is Public and is
the network's Exit, `resB` is Hidden, `resC` is Public. -/

def pfxA : Pfx := ⟨1, 1, true⟩

def pfxB : Pfx := ⟨2, 2, true⟩

def pfxC : Pfx := ⟨3, 3, true⟩

def pfxD : Pfx := ⟨4, 4, true⟩

def nodeA : NodeID := ⟨"A", ReachV4.unknown, ReachV6.public⟩

def nodeB : NodeID := ⟨"B", ReachV4.hidden, ReachV6.unknown⟩

def nodeC : NodeID := ⟨"C", ReachV4.public, ReachV6.unknown⟩

/-- A NodeID that is classified both Public (IPv6) and Hidden (IPv4). -/
def nodeDual : NodeID := ⟨"D", ReachV4.hidden, ReachV6.public⟩

def connA : Connection := ⟨"KA", [1, 2, 3, 4], 51820⟩

def connB : Connection := ⟨"KB", [5, 6, 7, 8], 51821⟩

def connC : Connection := ⟨"KC", [9, 9, 9, 9], 51822⟩

def peerToA : Peer := ⟨pfxA, ConnType.wireguard, connA⟩

def peerToB : Peer := ⟨pfxB, ConnType.wireguard, connB⟩

def peerToC : Peer := ⟨pfxC, ConnType.wireguard, connC⟩

def resA : NetResource := ⟨nodeA, pfxA, "fe80::1x1/64", [peerToB, peerToC]⟩

def resB : NetResource := ⟨nodeB, pfxB, "fe80::2x2/64", [peerToA]⟩

def resC : NetResource := ⟨nodeC, pfxC, "fe80::3x3/64", [peerToA, peerToB]⟩

def nw3 : Network := ⟨[resA, resB, resC], resA, 0⟩

/-- A non-WireGuard peer entry whose target is the Exit's network. -/
def peerToAOther : Peer := ⟨pfxA, ConnType.other, connA⟩

/-- A local resource whose only peer is the non-WireGuard `peerToAOther`. -/
def lrNonWG : NetResource := ⟨nodeB, pfxB, "fe80::2x2/64", [peerToAOther]⟩

/-- A peer entry pointing at the Exit's own network. -/
def selfPeer : Peer := ⟨pfxA, ConnType.wireguard, ⟨"KSELF", [1, 2, 3, 4], 7⟩⟩

/-- The Exit resource itself, with its own network in its peer list. -/
def lrSelfExit : NetResource := ⟨nodeA, pfxA, "fe80::1x1/64", [selfPeer]⟩

/-- A local resource whose peer list has no entry for the Exit. -/
def lrNoExit : NetResource := ⟨nodeB, pfxB, "fe80::2x2/64", [peerToC]⟩

/-- A network whose single resource is both Public and Hidden. -/
def resDual : NetResource := ⟨nodeDual, pfxD, "fe80::4x4/64", []⟩

/-- A local public resource with one hidden peer, one public peer and a
self entry. -/
def lrPub : NetResource := ⟨nodeA, pfxA, "fe80::1x1/64", [peerToB, peerToC, peerToA]⟩

deriving instance DecidableEq for Except

/-! Shared lemmas. -/

theorem getPeer_error_of_not_found (s : String) (qs : List Peer)
    (h : ∀ q ∈ qs, q.pfx.string ≠ s) :
    getPeer s qs = Except.error "peer not found" := by
  induction qs with
  | nil => rfl
  | cons q rest ih =>
    have hq : ¬ q.pfx.string = s := h q (List.mem_cons_self q rest)
    simp only [getPeer, if_neg hq]
    exact ih (fun p hp => h p (List.mem_cons_of_mem q hp))

theorem isIn_eq_true_iff (s : String) (l : List String) :
    isIn s l = true ↔ s ∈ l := by
  induction l with
  | nil => simp [isIn]
  | cons x rest ih =>
    by_cases hx : s = x
    · simp [isIn, hx]
    · simp [isIn, hx, ih]

theorem isIn_publicPfxs_iff (s : String) (rs : List NetResource) :
    isIn s (publicPfxs rs) = true ↔
      ∃ r, r ∈ rs ∧ isPublic r.nodeID = true ∧ r.pfx.string = s := by
  induction rs with
  | nil => simp [publicPfxs, isIn]
  | cons r rest ih =>
    by_cases hp : isPublic r.nodeID
    · by_cases hs : s = r.pfx.string
      · simp [publicPfxs, hp, isIn, hs]
      · have : ¬ r.pfx.string = s := fun h => hs h.symm
        simp only [publicPfxs, if_pos hp, isIn, if_neg (fun h => hs h), ih]
        constructor
        · rintro ⟨w, hw, hwp, hws⟩
          exact ⟨w, List.mem_cons_of_mem r hw, hwp, hws⟩
        · rintro ⟨w, hw, hwp, hws⟩
          rcases List.mem_cons.mp hw with hw1 | hw2
          · exact absurd (hw1 ▸ hws) this
          · exact ⟨w, hw2, hwp, hws⟩
    · simp only [publicPfxs, if_neg hp, ih]
      constructor
      · rintro ⟨w, hw, hwp, hws⟩
        exact ⟨w, List.mem_cons_of_mem r hw, hwp, hws⟩
      · rintro ⟨w, hw, hwp, hws⟩
        rcases List.mem_cons.mp hw with hw1 | hw2
        · exact absurd (hw1 ▸ hwp) hp
        · exact ⟨w, hw2, hwp, hws⟩

theorem isIn_hiddenPfxs_iff (s : String) (rs : List NetResource) :
    isIn s (hiddenPfxs rs) = true ↔
      ∃ r, r ∈ rs ∧ isHidden r.nodeID = true ∧ r.pfx.string = s := by
  induction rs with
  | nil => simp [hiddenPfxs, isIn]
  | cons r rest ih =>
    by_cases hp : isHidden r.nodeID
    · by_cases hs : s = r.pfx.string
      · simp [hiddenPfxs, hp, isIn, hs]
      · simp only [hiddenPfxs, if_pos hp, isIn, if_neg (fun h => hs h), ih]
        constructor
        · rintro ⟨w, hw, hwp, hws⟩
          exact ⟨w, List.mem_cons_of_mem r hw, hwp, hws⟩
        · rintro ⟨w, hw, hwp, hws⟩
          rcases List.mem_cons.mp hw with hw1 | hw2
          · exact absurd (hw1 ▸ hws) (fun h => hs h.symm)
          · exact ⟨w, hw2, hwp, hws⟩
    · simp only [hiddenPfxs, if_neg hp, ih]
      constructor
      · rintro ⟨w, hw, hwp, hws⟩
        exact ⟨w, List.mem_cons_of_mem r hw, hwp, hws⟩
      · rintro ⟨w, hw, hwp, hws⟩
        rcases List.mem_cons.mp hw with hw1 | hw2
        · exact absurd (hw1 ▸ hwp) hp
        · exact ⟨w, hw2, hwp, hws⟩

theorem exitLoop_filter_wireguard (ls : String) (hid : List String) (qs : List Peer) :
    exitLoop ls hid (qs.filter (fun q => decide (q.ctype = ConnType.wireguard))) =
      exitLoop ls hid qs := by
  induction qs with
  | nil => rfl
  | cons q rest ih =>
    by_cases hq : q.ctype = ConnType.wireguard
    · rw [List.filter_cons_of_pos (by simpa using hq)]
      simp only [exitLoop]
      rw [ih]
    · rw [List.filter_cons_of_neg (by simpa using hq), ih]
      simp [exitLoop, hq]

theorem hiddenLoop_filter_wireguard (ls : String) (pub : List String) (qs : List Peer) :
    hiddenLoop ls pub (qs.filter (fun q => decide (q.ctype = ConnType.wireguard))) =
      hiddenLoop ls pub qs := by
  induction qs with
  | nil => rfl
  | cons q rest ih =>
    by_cases hq : q.ctype = ConnType.wireguard
    · rw [List.filter_cons_of_pos (by simpa using hq)]
      simp only [hiddenLoop]
      rw [ih]
    · rw [List.filter_cons_of_neg (by simpa using hq), ih]
      simp [hiddenLoop, hq]

theorem publicLoop_filter_wireguard (ls : String) (pub : List String) (es : String)
    (qs : List Peer) :
    publicLoop ls pub es (qs.filter (fun q => decide (q.ctype = ConnType.wireguard))) =
      publicLoop ls pub es qs := by
  induction qs with
  | nil => rfl
  | cons q rest ih =>
    by_cases hq : q.ctype = ConnType.wireguard
    · rw [List.filter_cons_of_pos (by simpa using hq)]
      simp only [publicLoop]
      rw [ih]
    · rw [List.filter_cons_of_neg (by simpa using hq), ih]
      simp [publicLoop, hq]

theorem exitLoop_filter_self (ls : String) (hid : List String) (qs : List Peer) :
    exitLoop ls hid (qs.filter (fun q => decide (q.pfx.string ≠ ls))) =
      exitLoop ls hid qs := by
  induction qs with
  | nil => rfl
  | cons q rest ih =>
    by_cases hs : q.pfx.string = ls
    · rw [List.filter_cons_of_neg (by simpa using hs), ih]
      by_cases hc : q.ctype = ConnType.wireguard
      · simp [exitLoop, hc, hs]
      · simp [exitLoop, hc]
    · rw [List.filter_cons_of_pos (by simpa using hs)]
      simp only [exitLoop]
      rw [ih]

theorem hiddenLoop_filter_self (ls : String) (pub : List String) (qs : List Peer) :
    hiddenLoop ls pub (qs.filter (fun q => decide (q.pfx.string ≠ ls))) =
      hiddenLoop ls pub qs := by
  induction qs with
  | nil => rfl
  | cons q rest ih =>
    by_cases hs : q.pfx.string = ls
    · rw [List.filter_cons_of_neg (by simpa using hs), ih]
      by_cases hc : q.ctype = ConnType.wireguard
      · simp [hiddenLoop, hc, hs]
      · simp [hiddenLoop, hc]
    · rw [List.filter_cons_of_pos (by simpa using hs)]
      simp only [hiddenLoop]
      rw [ih]

theorem publicLoop_filter_self (ls : String) (pub : List String) (es : String)
    (qs : List Peer) :
    publicLoop ls pub es (qs.filter (fun q => decide (q.pfx.string ≠ ls))) =
      publicLoop ls pub es qs := by
  induction qs with
  | nil => rfl
  | cons q rest ih =>
    by_cases hs : q.pfx.string = ls
    · rw [List.filter_cons_of_neg (by simpa using hs), ih]
      by_cases hc : q.ctype = ConnType.wireguard
      · simp [publicLoop, hc, hs]
      · simp [publicLoop, hc]
    · rw [List.filter_cons_of_pos (by simpa using hs)]
      simp only [publicLoop]
      rw [ih]

theorem hiddenLoop_chars (ls : String) (pub : List String) (qs : List Peer)
    (ps : List WGPeer) (rs : List Route)
    (h : hiddenLoop ls pub qs = Except.ok (ps, rs)) :
    (∀ r ∈ rs, ∃ q, q ∈ qs ∧ r = mkMeshRoute q ∧ isIn q.pfx.string pub = true) ∧
    (∀ gp ∈ ps, ∃ q, q ∈ qs ∧ isIn q.pfx.string pub = true ∧
        gp.publicKey = q.connection.key ∧ gp.endpoint = endpoint q) := by
  induction qs generalizing ps rs with
  | nil =>
    simp only [hiddenLoop, Except.ok.injEq, Prod.mk.injEq] at h
    obtain ⟨h1, h2⟩ := h
    subst h1; subst h2
    simp
  | cons q rest ih =>
    simp only [hiddenLoop] at h
    by_cases hc : q.ctype ≠ ConnType.wireguard
    · rw [if_pos hc] at h
      obtain ⟨hr, hp⟩ := ih ps rs h
      constructor
      · intro r hrr
        obtain ⟨w, hw, h1, h2⟩ := hr r hrr
        exact ⟨w, List.mem_cons_of_mem q hw, h1, h2⟩
      · intro gp hgp
        obtain ⟨w, hw, h1, h2, h3⟩ := hp gp hgp
        exact ⟨w, List.mem_cons_of_mem q hw, h1, h2, h3⟩
    · rw [if_neg hc] at h
      by_cases hs : q.pfx.string = ls
      · rw [if_pos hs] at h
        obtain ⟨hr, hp⟩ := ih ps rs h
        constructor
        · intro r hrr
          obtain ⟨w, hw, h1, h2⟩ := hr r hrr
          exact ⟨w, List.mem_cons_of_mem q hw, h1, h2⟩
        · intro gp hgp
          obtain ⟨w, hw, h1, h2, h3⟩ := hp gp hgp
          exact ⟨w, List.mem_cons_of_mem q hw, h1, h2, h3⟩
      · rw [if_neg hs] at h
        cases hv : nibbleToV4 q.pfx with
        | none => rw [hv] at h; cases h
        | some ab =>
          obtain ⟨a, b⟩ := ab
          rw [hv] at h
          cases hrec : hiddenLoop ls pub rest with
          | error e => rw [hrec] at h; cases h
          | ok pr =>
            obtain ⟨ps2, rs2⟩ := pr
            rw [hrec] at h
            obtain ⟨hr, hp⟩ := ih ps2 rs2 hrec
            dsimp only at h
            by_cases hin : isIn q.pfx.string pub = true
            · rw [if_pos hin] at h
              simp only [Except.ok.injEq, Prod.mk.injEq] at h
              obtain ⟨h1, h2⟩ := h
              subst h1; subst h2
              constructor
              · intro r hrr
                rcases List.mem_cons.mp hrr with hh | hh
                · exact ⟨q, List.mem_cons_self q rest, hh, hin⟩
                · obtain ⟨w, hw, k1, k2⟩ := hr r hh
                  exact ⟨w, List.mem_cons_of_mem q hw, k1, k2⟩
              · intro gp hgp
                rcases List.mem_cons.mp hgp with hh | hh
                · subst hh
                  exact ⟨q, List.mem_cons_self q rest, hin, rfl, rfl⟩
                · obtain ⟨w, hw, k1, k2, k3⟩ := hp gp hh
                  exact ⟨w, List.mem_cons_of_mem q hw, k1, k2, k3⟩
            · rw [if_neg hin] at h
              simp only [Except.ok.injEq, Prod.mk.injEq] at h
              obtain ⟨h1, h2⟩ := h
              subst h1; subst h2
              constructor
              · intro r hrr
                obtain ⟨w, hw, k1, k2⟩ := hr r hrr
                exact ⟨w, List.mem_cons_of_mem q hw, k1, k2⟩
              · intro gp hgp
                obtain ⟨w, hw, k1, k2, k3⟩ := hp gp hgp
                exact ⟨w, List.mem_cons_of_mem q hw, k1, k2, k3⟩

theorem publicLoop_chars (ls : String) (pub : List String) (es : String) (qs : List Peer)
    (ps : List WGPeer) (rs : List Route)
    (h : publicLoop ls pub es qs = Except.ok (ps, rs)) :
    (∀ gp ∈ ps, ∃ q, q ∈ qs ∧ gp.publicKey = q.connection.key ∧
        gp.endpoint = (if isIn q.pfx.string pub then endpoint q else "")) ∧
    (∀ q ∈ qs, q.ctype = ConnType.wireguard → q.pfx.string ≠ ls →
        q.pfx.string ≠ es → mkMeshRoute q ∈ rs) ∧
    (∀ r ∈ rs, ∃ q, q ∈ qs ∧ r = mkMeshRoute q ∧ q.pfx.string ≠ es) := by
  induction qs generalizing ps rs with
  | nil =>
    simp only [publicLoop, Except.ok.injEq, Prod.mk.injEq] at h
    obtain ⟨h1, h2⟩ := h
    subst h1; subst h2
    simp
  | cons q rest ih =>
    simp only [publicLoop] at h
    by_cases hc : q.ctype ≠ ConnType.wireguard
    · rw [if_pos hc] at h
      obtain ⟨h1, h2, h3⟩ := ih ps rs h
      refine ⟨?_, ?_, ?_⟩
      · intro gp hgp
        obtain ⟨w, hw, k1, k2⟩ := h1 gp hgp
        exact ⟨w, List.mem_cons_of_mem q hw, k1, k2⟩
      · intro w hw hwc hwl hwe
        rcases List.mem_cons.mp hw with hh | hh
        · exact absurd hwc (by rw [hh]; exact hc)
        · exact h2 w hh hwc hwl hwe
      · intro r hrr
        obtain ⟨w, hw, k1, k2⟩ := h3 r hrr
        exact ⟨w, List.mem_cons_of_mem q hw, k1, k2⟩
    · rw [if_neg hc] at h
      by_cases hs : q.pfx.string = ls
      · rw [if_pos hs] at h
        obtain ⟨h1, h2, h3⟩ := ih ps rs h
        refine ⟨?_, ?_, ?_⟩
        · intro gp hgp
          obtain ⟨w, hw, k1, k2⟩ := h1 gp hgp
          exact ⟨w, List.mem_cons_of_mem q hw, k1, k2⟩
        · intro w hw hwc hwl hwe
          rcases List.mem_cons.mp hw with hh | hh
          · exact absurd (by rw [hh]; exact hs) hwl
          · exact h2 w hh hwc hwl hwe
        · intro r hrr
          obtain ⟨w, hw, k1, k2⟩ := h3 r hrr
          exact ⟨w, List.mem_cons_of_mem q hw, k1, k2⟩
      · rw [if_neg hs] at h
        cases hv : nibbleToV4 q.pfx with
        | none => rw [hv] at h; cases h
        | some ab =>
          obtain ⟨a, b⟩ := ab
          rw [hv] at h
          cases hrec : publicLoop ls pub es rest with
          | error e => rw [hrec] at h; cases h
          | ok pr =>
            obtain ⟨ps2, rs2⟩ := pr
            rw [hrec] at h
            obtain ⟨h1, h2, h3⟩ := ih ps2 rs2 hrec
            dsimp only at h
            by_cases he : q.pfx.string = es
            · rw [if_pos he] at h
              simp only [Except.ok.injEq, Prod.mk.injEq] at h
              obtain ⟨k1, k2⟩ := h
              subst k1; subst k2
              refine ⟨?_, ?_, ?_⟩
              · intro gp hgp
                rcases List.mem_cons.mp hgp with hh | hh
                · subst hh
                  exact ⟨q, List.mem_cons_self q rest, rfl, rfl⟩
                · obtain ⟨w, hw, k1, k2⟩ := h1 gp hh
                  exact ⟨w, List.mem_cons_of_mem q hw, k1, k2⟩
              · intro w hw hwc hwl hwe
                rcases List.mem_cons.mp hw with hh | hh
                · exact absurd (by rw [hh]; exact he) hwe
                · exact h2 w hh hwc hwl hwe
              · intro r hrr
                obtain ⟨w, hw, k1, k2⟩ := h3 r hrr
                exact ⟨w, List.mem_cons_of_mem q hw, k1, k2⟩
            · rw [if_neg he] at h
              simp only [Except.ok.injEq, Prod.mk.injEq] at h
              obtain ⟨k1, k2⟩ := h
              subst k1; subst k2
              refine ⟨?_, ?_, ?_⟩
              · intro gp hgp
                rcases List.mem_cons.mp hgp with hh | hh
                · subst hh
                  exact ⟨q, List.mem_cons_self q rest, rfl, rfl⟩
                · obtain ⟨w, hw, k1, k2⟩ := h1 gp hh
                  exact ⟨w, List.mem_cons_of_mem q hw, k1, k2⟩
              · intro w hw hwc hwl hwe
                rcases List.mem_cons.mp hw with hh | hh
                · rw [hh]
                  exact List.mem_cons_self (mkMeshRoute q) rs2
                · exact List.mem_cons_of_mem (mkMeshRoute q) (h2 w hh hwc hwl hwe)
              · intro r hrr
                rcases List.mem_cons.mp hrr with hh | hh
                · exact ⟨q, List.mem_cons_self q rest, hh, he⟩
                · obtain ⟨w, hw, k1, k2⟩ := h3 r hh
                  exact ⟨w, List.mem_cons_of_mem q hw, k1, k2⟩

theorem candVolLoop_early (size usage : Nat) (acc : List (Volume × Nat))
    (vols : List Volume)
    (h : ∃ v, v ∈ vols ∧ isZdbVolume v = true ∧
        nsTotal v.namespaces + size ≤ usage) :
    ∃ cs, candVolLoop size usage acc vols = CandOut.earlyReturn cs := by
  induction vols generalizing acc with
  | nil =>
    obtain ⟨v, hv, _⟩ := h
    cases hv
  | cons v rest ih =>
    by_cases hz : isZdbVolume v = false
    · have h2 : ∃ w, w ∈ rest ∧ isZdbVolume w = true ∧
          nsTotal w.namespaces + size ≤ usage := by
        obtain ⟨w, hw, hwz, hwr⟩ := h
        rcases List.mem_cons.mp hw with hh | hh
        · rw [hh] at hwz
          rw [hwz] at hz
          cases hz
        · exact ⟨w, hh, hwz, hwr⟩
      obtain ⟨cs, hcs⟩ := ih acc h2
      exact ⟨cs, by simp only [candVolLoop, if_pos hz]; exact hcs⟩
    · by_cases hroom : nsTotal v.namespaces + size > usage
      · have h2 : ∃ w, w ∈ rest ∧ isZdbVolume w = true ∧
            nsTotal w.namespaces + size ≤ usage := by
          obtain ⟨w, hw, hwz, hwr⟩ := h
          rcases List.mem_cons.mp hw with hh | hh
          · rw [hh] at hwr
            omega
          · exact ⟨w, hh, hwz, hwr⟩
        obtain ⟨cs, hcs⟩ := ih acc h2
        exact ⟨cs, by simp only [candVolLoop, if_neg hz, if_pos hroom]; exact hcs⟩
      · exact ⟨acc ++ [(v, usage - (nsTotal v.namespaces + size))],
          by simp only [candVolLoop, if_neg hz, if_neg hroom]⟩

theorem candPoolLoop_early (diskType : String) (size : Nat)
    (acc : List (Volume × Nat)) (pools : List Pool)
    (h : ∃ pool, pool ∈ pools ∧ pool.ptype = diskType ∧
        ∃ v, v ∈ pool.volumes ∧ isZdbVolume v = true ∧
          nsTotal v.namespaces + size ≤ pool.usageSize) :
    ∃ cs, candPoolLoop diskType size acc pools = CandOut.earlyReturn cs := by
  induction pools generalizing acc with
  | nil =>
    obtain ⟨p, hp, _⟩ := h
    cases hp
  | cons pool rest ih =>
    by_cases ht : pool.ptype ≠ diskType
    · have h2 : ∃ p, p ∈ rest ∧ p.ptype = diskType ∧
          ∃ v, v ∈ p.volumes ∧ isZdbVolume v = true ∧
            nsTotal v.namespaces + size ≤ p.usageSize := by
        obtain ⟨p, hp, hpt, hrest⟩ := h
        rcases List.mem_cons.mp hp with hh | hh
        · rw [hh] at hpt
          exact absurd hpt ht
        · exact ⟨p, hh, hpt, hrest⟩
      obtain ⟨cs, hcs⟩ := ih acc h2
      exact ⟨cs, by simp only [candPoolLoop, if_pos ht]; exact hcs⟩
    · rw [not_not] at ht
      cases hvl : candVolLoop size pool.usageSize acc pool.volumes with
      | earlyReturn cs =>
        refine ⟨cs, ?_⟩
        simp only [candPoolLoop, if_neg (not_not_intro ht)]
        rw [hvl]
      | fellThrough cs =>
        obtain ⟨p, hp, hpt, hrest⟩ := h
        rcases List.mem_cons.mp hp with hh | hh
        · obtain ⟨cs2, hcs2⟩ := candVolLoop_early size pool.usageSize acc pool.volumes
            (by rw [hh] at hrest; exact hrest)
          rw [hcs2] at hvl
          cases hvl
        · obtain ⟨cs2, hcs2⟩ := ih cs ⟨p, hh, hpt, hrest⟩
          refine ⟨cs2, ?_⟩
          simp only [candPoolLoop, if_neg (not_not_intro ht)]
          rw [hvl]
          exact hcs2

/-! Claim theorems. -/

/-- C1: at a non-exit resource with the Exit in its peer list
(`resB` in the network `nw3`, whose Exit is `resA`), `prepareNonExitNode`
does return exactly three routes via the expected gateways — but the
IPv6 route it builds is `::` with `net.CIDRMask(64, 128)`, i.e. `::/64`,
not the catch-all `::/0` the claim (and the source's own "default route"
comment) state. -/
theorem prepareNonExitNode_ipv6_route_is_slash64 :
    prepareNonExitNode resB nw3 =
      Except.ok
        ([{ publicKey := "KA", endpoint := "[1.2.3.4]:51820",
            allowedIPs := ["0.0.0.0/0", "::/0"] }],
         [{ dst := RouteDst.cidr "::" 64 128, gw := "fe80::1x1" },
          { dst := RouteDst.cidr "10.1.1.0" 24 32, gw := "172.16.1.1" },
          { dst := RouteDst.cidr "0.0.0.0" 0 32, gw := "172.16.1.1" }]) ∧
    (RouteDst.cidr "::" 64 128 ≠ RouteDst.cidr "::" 0 128) := by
  constructor
  · rfl
  · decide

/-- C3: applying the very same plan twice to the same namespace is NOT
idempotent in the code: the second apply hits the kernel's
"file exists" (EEXIST) condition on the already-assigned address (and
would equally hit it on the already-installed route, net_resource.go
line 452 propagates it unchanged), and `configWG` returns it as an
error instead of treating it as success. -/
theorem configWG_second_apply_fails :
    configWG resB [] [mkMeshRoute peerToA] "key" ⟨[], "", [], []⟩ =
      Except.ok ⟨["fe80::2x2/64", "172.16.2.2/16"], "key", [],
        [{ dst := RouteDst.pfx pfxA, gw := "fe80::1x1" }]⟩ ∧
    configWG resB [] [mkMeshRoute peerToA] "key"
        ⟨["fe80::2x2/64", "172.16.2.2/16"], "key", [],
          [{ dst := RouteDst.pfx pfxA, gw := "fe80::1x1" }]⟩ =
      Except.error "file exists" := by
  constructor
  · rfl
  · rfl

/-- C2 counterexample: in `nw3`, planning for the hidden resource `resB`
returns a route whose destination is `resA`'s network — a resource in
the PUBLIC partition, not the hidden one (`hiddenPfxs` of the network
does not contain it), refuting "restricted to the hidden prefixes
partition". -/
theorem prepareHidden_route_to_public_cex :
    prepareHidden resB nw3 =
      Except.ok
        ([{ publicKey := "KA", endpoint := "[1.2.3.4]:51820",
            allowedIPs := ["fe80::1x1/128", "172.16.1.1/32", "2001:1:1::/64"] }],
         [{ dst := RouteDst.pfx pfxA, gw := "fe80::1x1" }]) ∧
    isIn pfxA.string (hiddenPfxs nw3.resources) = false ∧
    isIn pfxA.string (publicPfxs nw3.resources) = true := by
  refine ⟨rfl, ?_, ?_⟩ <;> decide

/-- C2 (amended): hidden/generic peer-set planning restricts its route
set to the PUBLIC partition — every returned route's destination is the
network of a resource classified as Public — and an endpoint is stamped
on a returned peer only when that peer's resource is itself Public
(every returned peer is such). -/
theorem prepareHidden_routes_in_public_partition (lr : NetResource) (nw : Network)
    (ps : List WGPeer) (rs : List Route)
    (h : prepareHidden lr nw = Except.ok (ps, rs)) :
    (∀ r ∈ rs, ∃ res, res ∈ nw.resources ∧ isPublic res.nodeID = true ∧
        ∃ p, r.dst = RouteDst.pfx p ∧ p.string = res.pfx.string) ∧
    (∀ gp ∈ ps, ∃ q, q ∈ lr.peers ∧
        isIn q.pfx.string (publicPfxs nw.resources) = true ∧
        gp.publicKey = q.connection.key ∧ gp.endpoint = endpoint q) := by
  obtain ⟨hr, hp⟩ :=
    hiddenLoop_chars lr.pfx.string (publicPfxs nw.resources) lr.peers ps rs h
  refine ⟨?_, hp⟩
  intro r hrr
  obtain ⟨q, hq, hrq, hin⟩ := hr r hrr
  obtain ⟨res, hres, hpub, hstr⟩ :=
    (isIn_publicPfxs_iff q.pfx.string nw.resources).mp hin
  refine ⟨res, hres, hpub, q.pfx, ?_, hstr.symm⟩
  rw [hrq]
  rfl

/-- C2 witness: the amended statement at the concrete hidden resource
`resB` of `nw3`, whose planning output is one peer and one route. -/
theorem prepareHidden_routes_in_public_partition_witness :
    (∀ r ∈ [Route.mk (RouteDst.pfx pfxA) "fe80::1x1"],
        ∃ res, res ∈ nw3.resources ∧ isPublic res.nodeID = true ∧
          ∃ p, r.dst = RouteDst.pfx p ∧ p.string = res.pfx.string) ∧
    (∀ gp ∈ [WGPeer.mk "KA" "[1.2.3.4]:51820"
        ["fe80::1x1/128", "172.16.1.1/32", "2001:1:1::/64"]],
        ∃ q, q ∈ resB.peers ∧
          isIn q.pfx.string (publicPfxs nw3.resources) = true ∧
          gp.publicKey = q.connection.key ∧ gp.endpoint = endpoint q) :=
  prepareHidden_routes_in_public_partition resB nw3
    [WGPeer.mk "KA" "[1.2.3.4]:51820"
      ["fe80::1x1/128", "172.16.1.1/32", "2001:1:1::/64"]]
    [Route.mk (RouteDst.pfx pfxA) "fe80::1x1"] rfl

/-- C4 counterexample: a resource whose NodeID is Public on IPv6 and
Hidden on IPv4 lands in BOTH partitions, so `publicPrefixes` and
`hiddenPrefixes` are not disjoint for every combination of
reachability flags. -/
theorem partition_not_disjoint_cex :
    isIn pfxD.string (publicPfxs [resDual]) = true ∧
    isIn pfxD.string (hiddenPfxs [resDual]) = true := by
  constructor <;> decide

/-- C5 counterexample: every peer of `lrNonWG` has a non-WireGuard
connection type, yet `prepareNonExitNode` still emits a peer entry (and
routes) built from that non-tunnel peer, because `getPeer` matches the
Exit by its network only and never checks the connection type. -/
theorem prepareNonExitNode_non_wireguard_cex :
    lrNonWG.peers.all (fun q => decide (q.ctype ≠ ConnType.wireguard)) = true ∧
    prepareNonExitNode lrNonWG nw3 =
      Except.ok
        ([{ publicKey := "KA", endpoint := "[1.2.3.4]:51820",
            allowedIPs := ["0.0.0.0/0", "::/0"] }],
         [{ dst := RouteDst.cidr "::" 64 128, gw := "fe80::1x1" },
          { dst := RouteDst.cidr "10.1.1.0" 24 32, gw := "172.16.1.1" },
          { dst := RouteDst.cidr "0.0.0.0" 0 32, gw := "172.16.1.1" }]) := by
  constructor
  · decide
  · rfl

/-- C6 counterexample: when the local resource IS the Exit and its peer
list carries an entry for its own network, `prepareNonExitNode` emits a
peer entry built from that self-peer (no self-peering check exists on
this code path), refuting the exclusion for every strategy. -/
theorem prepareNonExitNode_self_peer_cex :
    selfPeer.pfx.string = lrSelfExit.pfx.string ∧
    lrSelfExit.pfx.string = nw3.exit.pfx.string ∧
    prepareNonExitNode lrSelfExit nw3 =
      Except.ok
        ([{ publicKey := "KSELF", endpoint := "[1.2.3.4]:7",
            allowedIPs := ["0.0.0.0/0", "::/0"] }], []) := by
  refine ⟨rfl, rfl, rfl⟩

/-- C5 (amended): the exit-hub, hidden and public planning strategies
ignore every peer whose connection type is not the WireGuard tunnel —
deleting all such peers from the local peer list leaves their output
unchanged, so a non-tunnel peer contributes no peer entry and no route.
(Default-route planning is the exception, see the counterexample:
`getPeer` selects the Exit peer by its network alone, ignoring the
connection type.) -/
theorem planners_ignore_non_wireguard_peers (lr : NetResource) (nw : Network) :
    configureExitNetNRPlan
        { lr with peers := lr.peers.filter (fun q => decide (q.ctype = ConnType.wireguard)) }
        nw =
      configureExitNetNRPlan lr nw ∧
    prepareHidden
        { lr with peers := lr.peers.filter (fun q => decide (q.ctype = ConnType.wireguard)) }
        nw =
      prepareHidden lr nw ∧
    preparePublic
        { lr with peers := lr.peers.filter (fun q => decide (q.ctype = ConnType.wireguard)) }
        nw =
      preparePublic lr nw := by
  refine ⟨?_, ?_, ?_⟩
  · exact exitLoop_filter_wireguard lr.pfx.string (hiddenPfxs nw.resources) lr.peers
  · exact hiddenLoop_filter_wireguard lr.pfx.string (publicPfxs nw.resources) lr.peers
  · exact publicLoop_filter_wireguard lr.pfx.string (publicPfxs nw.resources)
      nw.exit.pfx.string lr.peers

/-- C6 (amended): the exit-hub, hidden and public planning strategies
exclude self-peers — deleting every peer whose network equals the local
resource's own leaves their output unchanged, so no peer entry and no
route targets the local network there. (Default-route planning is the
exception, see the counterexample: when the local resource is the Exit
itself, a self-peer entry is emitted without any self-peering check.) -/
theorem planners_exclude_self_peers (lr : NetResource) (nw : Network) :
    configureExitNetNRPlan
        { lr with peers := lr.peers.filter (fun q => decide (q.pfx.string ≠ lr.pfx.string)) }
        nw =
      configureExitNetNRPlan lr nw ∧
    prepareHidden
        { lr with peers := lr.peers.filter (fun q => decide (q.pfx.string ≠ lr.pfx.string)) }
        nw =
      prepareHidden lr nw ∧
    preparePublic
        { lr with peers := lr.peers.filter (fun q => decide (q.pfx.string ≠ lr.pfx.string)) }
        nw =
      preparePublic lr nw := by
  refine ⟨?_, ?_, ?_⟩
  · exact exitLoop_filter_self lr.pfx.string (hiddenPfxs nw.resources) lr.peers
  · exact hiddenLoop_filter_self lr.pfx.string (publicPfxs nw.resources) lr.peers
  · exact publicLoop_filter_self lr.pfx.string (publicPfxs nw.resources)
      nw.exit.pfx.string lr.peers

/-- C7: in public-node planning, every returned peer entry carries an
endpoint exactly when its network is in the public partition (the
endpoint field is `endpoint(peer)` then, and the Go zero value `""`
otherwise), a route via the peer's link-local address is emitted for
every included WireGuard, non-self peer except the one whose network is
the Exit's, and every emitted route is such a link-local route to a
non-Exit peer. -/
theorem preparePublic_endpoint_iff_public_and_routes (lr : NetResource) (nw : Network)
    (ps : List WGPeer) (rs : List Route)
    (h : preparePublic lr nw = Except.ok (ps, rs)) :
    (∀ gp ∈ ps, ∃ q, q ∈ lr.peers ∧ gp.publicKey = q.connection.key ∧
        gp.endpoint =
          (if isIn q.pfx.string (publicPfxs nw.resources) then endpoint q else "")) ∧
    (∀ q ∈ lr.peers, q.ctype = ConnType.wireguard → q.pfx.string ≠ lr.pfx.string →
        q.pfx.string ≠ nw.exit.pfx.string → mkMeshRoute q ∈ rs) ∧
    (∀ r ∈ rs, ∃ q, q ∈ lr.peers ∧ r = mkMeshRoute q ∧
        q.pfx.string ≠ nw.exit.pfx.string) :=
  publicLoop_chars lr.pfx.string (publicPfxs nw.resources) nw.exit.pfx.string
    lr.peers ps rs h

/-- C7 witness: the statement at the concrete public resource `lrPub` of
`nw3` (peers towards hidden `resB`, public `resC` and itself): the
hidden peer gets no endpoint, the public one does, and routes go to both
non-exit peers. -/
theorem preparePublic_endpoint_iff_public_and_routes_witness :
    (∀ gp ∈ [WGPeer.mk "KB" ""
        ["fe80::2x2/128", "172.16.2.2/32", "2001:2:2::/64"],
      WGPeer.mk "KC" "[9.9.9.9]:51822"
        ["fe80::3x3/128", "172.16.3.3/32", "2001:3:3::/64"]],
        ∃ q, q ∈ lrPub.peers ∧ gp.publicKey = q.connection.key ∧
          gp.endpoint =
            (if isIn q.pfx.string (publicPfxs nw3.resources) then endpoint q else "")) ∧
    (∀ q ∈ lrPub.peers, q.ctype = ConnType.wireguard →
        q.pfx.string ≠ lrPub.pfx.string → q.pfx.string ≠ nw3.exit.pfx.string →
        mkMeshRoute q ∈
          [Route.mk (RouteDst.pfx pfxB) "fe80::2x2",
           Route.mk (RouteDst.pfx pfxC) "fe80::3x3"]) ∧
    (∀ r ∈ [Route.mk (RouteDst.pfx pfxB) "fe80::2x2",
        Route.mk (RouteDst.pfx pfxC) "fe80::3x3"],
        ∃ q, q ∈ lrPub.peers ∧ r = mkMeshRoute q ∧
          q.pfx.string ≠ nw3.exit.pfx.string) :=
  preparePublic_endpoint_iff_public_and_routes lrPub nw3
    [WGPeer.mk "KB" "" ["fe80::2x2/128", "172.16.2.2/32", "2001:2:2::/64"],
     WGPeer.mk "KC" "[9.9.9.9]:51822"
       ["fe80::3x3/128", "172.16.3.3/32", "2001:3:3::/64"]]
    [Route.mk (RouteDst.pfx pfxB) "fe80::2x2",
     Route.mk (RouteDst.pfx pfxC) "fe80::3x3"] rfl

/-- C8: when no peer of the local resource targets the Exit's network,
`prepareNonExitNode` fails with the `getPeer` "peer not found" error and
returns no peers and no routes (the Go function returns `nil, nil, err`);
the missing Exit is never silently skipped. -/
theorem prepareNonExitNode_missing_exit_error (lr : NetResource) (nw : Network)
    (h : ∀ q ∈ lr.peers, q.pfx.string ≠ nw.exit.pfx.string) :
    prepareNonExitNode lr nw = Except.error "peer not found" := by
  have hg := getPeer_error_of_not_found nw.exit.pfx.string lr.peers h
  simp [prepareNonExitNode, hg]

/-- C8 witness: `lrNoExit`'s only peer targets `resC`'s network, not the
Exit `resA`, and planning indeed fails with "peer not found". -/
theorem prepareNonExitNode_missing_exit_error_witness :
    prepareNonExitNode lrNoExit nw3 = Except.error "peer not found" :=
  prepareNonExitNode_missing_exit_error lrNoExit nw3 (by decide)

/-- C4 (amended): `publicPrefixes` and `hiddenPrefixes` are disjoint for
resources whose networks are pairwise-distinct keys, PROVIDED no
resource's NodeID is classified both Public and Hidden; a NodeID with
IPv6 Public and IPv4 Hidden satisfies both predicates and lands in both
partitions (see the counterexample), so disjointness does not hold for
every combination of reachability flags. -/
theorem partition_disjoint_without_dual_nodes (rs : List NetResource)
    (hkey : ∀ r1 ∈ rs, ∀ r2 ∈ rs, r1.pfx.string = r2.pfx.string → r1 = r2)
    (hnd : ∀ r ∈ rs, ¬ (isPublic r.nodeID = true ∧ isHidden r.nodeID = true)) :
    ∀ s, isIn s (publicPfxs rs) = true → isIn s (hiddenPfxs rs) = false := by
  intro s hs
  cases hx : isIn s (hiddenPfxs rs) with
  | false => rfl
  | true =>
    obtain ⟨r1, hr1, hp1, hs1⟩ := (isIn_publicPfxs_iff s rs).mp hs
    obtain ⟨r2, hr2, hp2, hs2⟩ := (isIn_hiddenPfxs_iff s rs).mp hx
    have he : r1 = r2 := hkey r1 hr1 r2 hr2 (by rw [hs1, hs2])
    exact absurd ⟨hp1, by rw [he]; exact hp2⟩ (hnd r1 hr1)

/-- C4 witness: in the two-resource list `[resA, resB]` (one Public-only,
one Hidden-only NodeID) the partitions are disjoint: `resA`'s network is
in the public partition and not in the hidden one. -/
theorem partition_disjoint_without_dual_nodes_witness :
    isIn pfxA.string (hiddenPfxs [resA, resB]) = false :=
  partition_disjoint_without_dual_nodes [resA, resB] (by decide) (by decide)
    pfxA.string (by decide)

/-- C9: when no volume holds the requested namespace and some pool of
the requested disk type has a zdb volume with enough free space, the
candidate search of `Allocate2` returns at the first such volume: the
result is the zero-value `Allocation{"", ""}` (the named return value,
never assigned on this path), no namespace is created, and the
best-free-space selection is never consulted. -/
theorem allocate2_short_circuit_zero_allocation (pools : List Pool)
    (nsID diskType : String) (size : Nat) (mode freshName : String)
    (h1 : findExisting diskType nsID pools = none)
    (h2 : ∃ pool, pool ∈ pools ∧ pool.ptype = diskType ∧
        ∃ v, v ∈ pool.volumes ∧ isZdbVolume v = true ∧
          nsTotal v.namespaces + size ≤ pool.usageSize) :
    Allocate2 pools nsID diskType size mode freshName =
      { allocation := { volumeID := "", volumePath := "" }, created := none } := by
  obtain ⟨cs, hcs⟩ := candPoolLoop_early diskType size [] pools h2
  simp only [Allocate2, h1, hcs]

/-- C9 witness: one SSD pool with an empty zdb volume of 100 units and a
10-unit request: `Allocate2` returns the zero-value Allocation and
creates nothing. -/
theorem allocate2_short_circuit_zero_allocation_witness :
    Allocate2 [Pool.mk "SSD" 100 [Volume.mk "zdb-1" "/mnt/zdb-1" []]]
        "ns-1" "SSD" 10 "seq" "fresh" =
      { allocation := { volumeID := "", volumePath := "" }, created := none } :=
  allocate2_short_circuit_zero_allocation
    [Pool.mk "SSD" 100 [Volume.mk "zdb-1" "/mnt/zdb-1" []]]
    "ns-1" "SSD" 10 "seq" "fresh" (by decide)
    ⟨Pool.mk "SSD" 100 [Volume.mk "zdb-1" "/mnt/zdb-1" []],
      by decide, by decide,
      Volume.mk "zdb-1" "/mnt/zdb-1" [], by decide, by decide, by decide⟩

/-- C10: `endpoint` returns the bracketed `[ip]:port` form exactly when
`Connection.IP` has the length of a valid 4-byte or 16-byte address
(Go's `To16` is non-nil on both, including IPv4), and the unbracketed
`ip:port` form for every other length (including the nil IP). -/
theorem endpoint_bracketed_iff_valid_length (q : Peer) :
    ((q.connection.ip.length = 4 ∨ q.connection.ip.length = 16) →
      endpoint q =
        "[" ++ ipString q.connection.ip ++ "]:" ++ toString q.connection.port) ∧
    (¬ (q.connection.ip.length = 4 ∨ q.connection.ip.length = 16) →
      endpoint q =
        ipString q.connection.ip ++ ":" ++ toString q.connection.port) := by
  constructor
  · intro h
    rcases h with h4 | h16
    · simp [endpoint, ipTo16, h4]
    · by_cases h4 : q.connection.ip.length = 4
      · simp [endpoint, ipTo16, h4]
      · simp [endpoint, ipTo16, h4, h16]
  · intro h
    push_neg at h
    simp [endpoint, ipTo16, h.1, h.2]

/-- C10 witness: `peerToA` carries the 4-byte address 1.2.3.4, and its
endpoint is the bracketed form. -/
theorem endpoint_bracketed_iff_valid_length_witness :
    endpoint peerToA =
      "[" ++ ipString peerToA.connection.ip ++ "]:" ++
        toString peerToA.connection.port :=
  (endpoint_bracketed_iff_valid_length peerToA).1 (Or.inl rfl)

end Zos
